import Mathlib

/-!
Verification of the semantic search engine in
`backend/app/semantic_search.py` (class `SemanticSearchEngine`).

The engine is embedded shallowly: message records are structures of
optional string fields (a missing dictionary key is `none`), embedding
vectors are lists of reals, the pair of on-disk artifacts
(`faiss.index`, `faiss_meta.json`) is a `Store` value, and the three
methods `build_index`, `load_index` and `search` are pure functions
that return the raised error (if any) together with the engine state
after the call, mirroring the mutations the Python method performs on
`self` before raising or returning.

The external libraries are embedded by their documented behaviour:
`faiss.normalize_L2` divides each vector by its L2 norm, leaving
vectors of zero norm untouched; `faiss.IndexFlatIP.search` is exact
top-k search by inner product, returning entries sorted by descending
score with ties broken by ascending insertion position; the sentence
transformer `model.encode` is an arbitrary function `String → List ℝ`
over which everything is parameterised.
-/

/-- One flattened chat message, as stored in the metadata list. A
Python dictionary key that is absent is modelled as `none`
(`dict.get` returns `None` for it). -/
structure MessageRecord where
  messageId : Option String
  conversationId : Option String
  sender : Option String
  text : Option String
  timestamp : Option String
deriving DecidableEq

/-- In-memory state of `SemanticSearchEngine`: `self.index` (a FAISS
index holding a list of vectors, `None` before initialisation) and
`self.metadata`. -/
structure EngineState where
  index : Option (List (List ℝ))
  metadata : List MessageRecord

/-- The pair of on-disk artifacts at `INDEX_PATH` / `META_PATH`. The
outer `Option` is file existence; the inner `Option` is readability
(`none` means `faiss.read_index` respectively `json.load` raises on
this file). -/
structure Store where
  indexFile : Option (Option (List (List ℝ)))
  metaFile : Option (Option (List MessageRecord))

/-- Errors raised by `build_index`: the `ValueError` on an empty
message list, the `KeyError` from `message["text"]` on a record
without a `text` key. -/
inductive BuildError where
  | emptyInput
  | missingField
deriving DecidableEq

/-- Failures inside the `try` block of `load_index`. -/
inductive ReadError where
  | indexCorrupt
  | metaUnparsable
deriving DecidableEq

/-- Errors raised by `load_index`: a `FileNotFoundError` for either
missing artifact (raised before the `try` block), or the
`RuntimeError` that wraps the original read error. -/
inductive LoadError where
  | indexFileNotFound
  | metaFileNotFound
  | wrapped (e : ReadError)
deriving DecidableEq

/-- Errors raised by `search`: the `RuntimeError` when no index is
loaded, the two `ValueError`s for a blank query and a non-positive
`top_k`. -/
inductive SearchError where
  | notReady
  | invalidQuery
  | invalidTopK
deriving DecidableEq

/-- Squared L2 norm of a vector. -/
def l2normSq (v : List ℝ) : ℝ := (v.map (fun x => x * x)).sum

/-- `faiss.normalize_L2`: divide each component by the L2 norm; a
vector of zero norm is left as-is (FAISS guards the renormalisation
with `nr > 0`). -/
noncomputable def normalizeL2 (v : List ℝ) : List ℝ :=
  if l2normSq v = 0 then v else v.map (fun x => x / Real.sqrt (l2normSq v))

/-- Inner product of two vectors. -/
def dotIP (a b : List ℝ) : ℝ := (List.zipWith (fun x y => x * y) a b).sum

/-- All candidates scored against the query: position `i` paired with
the inner product of the query and the `i`-th stored vector. -/
def scored (xs : List (List ℝ)) (q : List ℝ) : List (ℝ × ℕ) :=
  xs.enum.map (fun p => (dotIP q p.2, p.1))

/-- FAISS result order: descending score, ties by ascending position. -/
def rankLE (a b : ℝ × ℕ) : Prop := b.1 < a.1 ∨ (a.1 = b.1 ∧ a.2 ≤ b.2)

noncomputable instance : DecidableRel rankLE := fun _ _ => instDecidableOr

instance : IsTotal (ℝ × ℕ) rankLE where
  total a b := by
    unfold rankLE
    rcases lt_trichotomy a.1 b.1 with h | h | h
    · exact Or.inr (Or.inl h)
    · rcases Nat.le_total a.2 b.2 with h2 | h2
      · exact Or.inl (Or.inr ⟨h, h2⟩)
      · exact Or.inr (Or.inr ⟨h.symm, h2⟩)
    · exact Or.inl (Or.inl h)

instance : IsTrans (ℝ × ℕ) rankLE where
  trans a b c hab hbc := by
    unfold rankLE at *
    rcases hab with h1 | ⟨e1, l1⟩
    · rcases hbc with h2 | ⟨e2, l2⟩
      · exact Or.inl (h2.trans h1)
      · exact Or.inl (e2.symm.trans_lt h1)
    · rcases hbc with h2 | ⟨e2, l2⟩
      · exact Or.inl (h2.trans_eq e1.symm)
      · exact Or.inr ⟨e1.trans e2, l1.trans l2⟩

/-- `faiss.IndexFlatIP.search` on an index holding `xs`: exact top-`k`
inner-product search. Returns `min k (length xs)` entries sorted by
descending score, ties by ascending position. (FAISS pads its output
with `-1` entries when `k` exceeds the index size; the padding
entries, which the caller skips, are simply absent here.) -/
noncomputable def faissSearchIP (xs : List (List ℝ)) (q : List ℝ) (k : ℕ) :
    List (ℝ × ℕ) :=
  (List.insertionSort rankLE (scored xs q)).take k

/-- The extraction `[message["text"] for message in messages]`: the
first record without a `text` key raises `KeyError`. -/
def extractTexts : List MessageRecord → Except BuildError (List String)
  | [] => .ok []
  | m :: rest =>
    match m.text with
    | none => .error .missingField
    | some t => (extractTexts rest).map (fun ts => t :: ts)

/-- `SemanticSearchEngine.build_index`. Returns the raised error (if
any) together with the engine state and store after the call: all
failures occur before the files and the instance attributes are
touched, and on success both artifacts are written and the in-memory
state is replaced by the fully constructed pair. -/
noncomputable def buildIndex (encode : String → List ℝ)
    (messages : List MessageRecord) (st : EngineState) (store : Store) :
    Except BuildError Unit × EngineState × Store :=
  if messages.isEmpty then (.error .emptyInput, st, store)
  else
    match extractTexts messages with
    | .error e => (.error e, st, store)
    | .ok texts =>
      let vecs := texts.map (fun t => normalizeL2 (encode t))
      (.ok (), ⟨some vecs, messages⟩, ⟨some (some vecs), some (some messages)⟩)

/-- `SemanticSearchEngine.load_index`. A missing file is detected
before the `try` block and leaves the state untouched; a failure
while reading either artifact resets the state to
`index = None, metadata = []` and raises a `RuntimeError` wrapping
the original error. -/
def loadIndex (st : EngineState) (store : Store) :
    Except LoadError Unit × EngineState :=
  match store.indexFile with
  | none => (.error .indexFileNotFound, st)
  | some indexContent =>
    match store.metaFile with
    | none => (.error .metaFileNotFound, st)
    | some metaContent =>
      match indexContent with
      | none => (.error (.wrapped .indexCorrupt), ⟨none, []⟩)
      | some vecs =>
        match metaContent with
        | none => (.error (.wrapped .metaUnparsable), ⟨none, []⟩)
        | some msgs => (.ok (), ⟨some vecs, msgs⟩)

/-- One entry of the list returned by `search`. -/
structure SearchResult where
  conversationId : Option String
  messageId : Option String
  snippet : Option String
  participant : Option String
  sender : Option String
  timestamp : Option String
  score : ℝ

/-- The result dictionary built for one hit: every field is copied
from the metadata record with `dict.get` (a missing key becomes
`none`); `participant` duplicates `sender`. -/
def mkResult (m : MessageRecord) (s : ℝ) : SearchResult :=
  { conversationId := m.conversationId
    messageId := m.messageId
    snippet := m.text
    participant := m.sender
    sender := m.sender
    timestamp := m.timestamp
    score := s }

/-- The result-assembly loop of `search`: each returned position is
looked up in the metadata list; positions out of range (and the `-1`
padding, absent from `faissSearchIP`) are skipped. -/
def assemble (meta : List MessageRecord) (pairs : List (ℝ × ℕ)) :
    List SearchResult :=
  pairs.filterMap (fun p => (meta.get? p.2).map (fun m => mkResult m p.1))

/-- `query.strip()` is empty: every character is whitespace. -/
def blankQuery (q : String) : Bool := q.data.all Char.isWhitespace

/-- `SemanticSearchEngine.search`. -/
noncomputable def search (encode : String → List ℝ) (st : EngineState)
    (query : String) (topK : ℤ) : Except SearchError (List SearchResult) :=
  match st.index with
  | none => .error .notReady
  | some vecs =>
    if st.metadata.isEmpty then .error .notReady
    else if blankQuery query then .error .invalidQuery
    else if topK ≤ 0 then .error .invalidTopK
    else
      let maxResults := (min topK (st.metadata.length : ℤ)).toNat
      let qv := normalizeL2 (encode query)
      .ok (assemble st.metadata (faissSearchIP vecs qv maxResults))

/-! ### Helper lemmas about text extraction and `build_index` -/

theorem extractTexts_ok_length {msgs : List MessageRecord} {ts : List String}
    (h : extractTexts msgs = .ok ts) : ts.length = msgs.length := by
  induction msgs generalizing ts with
  | nil =>
    simp only [extractTexts, Except.ok.injEq] at h
    simp [← h]
  | cons m rest ih =>
    unfold extractTexts at h
    cases hm : m.text with
    | none => rw [hm] at h; exact absurd h (by simp)
    | some t =>
      rw [hm] at h
      cases hr : extractTexts rest with
      | error e => rw [hr] at h; exact absurd h (by simp [Except.map])
      | ok ts2 =>
        rw [hr] at h
        simp only [Except.map, Except.ok.injEq] at h
        simp [← h, ih hr]

theorem extractTexts_ok_of_forall {msgs : List MessageRecord}
    (h : ∀ m ∈ msgs, m.text.isSome) : ∃ ts, extractTexts msgs = .ok ts := by
  induction msgs with
  | nil => exact ⟨[], rfl⟩
  | cons m rest ih =>
    obtain ⟨t, ht⟩ := Option.isSome_iff_exists.mp (h m (by simp))
    obtain ⟨ts, hts⟩ := ih (fun m hm => h m (by simp [hm]))
    exact ⟨t :: ts, by simp [extractTexts, ht, hts, Except.map]⟩

theorem extractTexts_error_of_missing {msgs : List MessageRecord}
    {m0 : MessageRecord} (hmem : m0 ∈ msgs) (hm0 : m0.text = none) :
    extractTexts msgs = .error .missingField := by
  induction msgs with
  | nil => cases hmem
  | cons m rest ih =>
    rcases List.mem_cons.mp hmem with h | h
    · subst h; simp [extractTexts, hm0]
    · cases hm : m.text with
      | none => simp [extractTexts, hm]
      | some t => simp [extractTexts, hm, ih h, Except.map]

theorem buildIndex_error_eq {enc : String → List ℝ} {msgs : List MessageRecord}
    {st : EngineState} {store : Store} {e : BuildError}
    (h : (buildIndex enc msgs st store).1 = .error e) :
    buildIndex enc msgs st store = (.error e, st, store) := by
  unfold buildIndex at *
  by_cases hne : msgs.isEmpty
  · simp only [hne, if_true] at h ⊢
    simp_all
  · simp only [hne, if_false] at h ⊢
    cases hx : extractTexts msgs with
    | error e2 => simp_all
    | ok ts => simp_all

theorem buildIndex_ok_shape {enc : String → List ℝ} {msgs : List MessageRecord}
    {st st1 : EngineState} {store store1 : Store} {u : Unit}
    (h : buildIndex enc msgs st store = (.ok u, st1, store1)) :
    ∃ ts, extractTexts msgs = .ok ts ∧
      st1 = ⟨some (ts.map fun t => normalizeL2 (enc t)), msgs⟩ ∧
      store1 = ⟨some (some (ts.map fun t => normalizeL2 (enc t))),
        some (some msgs)⟩ := by
  unfold buildIndex at h
  by_cases hne : msgs.isEmpty
  · simp [hne] at h
  · simp only [hne, if_false] at h
    cases hx : extractTexts msgs with
    | error e2 => rw [hx] at h; simp at h
    | ok ts =>
      rw [hx] at h
      refine ⟨ts, rfl, ?_, ?_⟩ <;> simp_all

theorem buildIndex_ok_of_valid {enc : String → List ℝ}
    {msgs : List MessageRecord} (st : EngineState) (store : Store)
    (hne : msgs ≠ []) (ht : ∀ m ∈ msgs, m.text.isSome) :
    ∃ ts, extractTexts msgs = .ok ts ∧
      buildIndex enc msgs st store =
        (.ok (), ⟨some (ts.map fun t => normalizeL2 (enc t)), msgs⟩,
          ⟨some (some (ts.map fun t => normalizeL2 (enc t))),
            some (some msgs)⟩) := by
  obtain ⟨ts, hts⟩ := extractTexts_ok_of_forall ht
  refine ⟨ts, hts, ?_⟩
  unfold buildIndex
  simp [List.isEmpty_iff, hne, hts]

/-! ### Helper lemmas about the FAISS top-k model -/

theorem length_scored (xs : List (List ℝ)) (q : List ℝ) :
    (scored xs q).length = xs.length := by
  simp [scored]

theorem length_faissSearchIP (xs : List (List ℝ)) (q : List ℝ) (k : ℕ) :
    (faissSearchIP xs q k).length = min k xs.length := by
  simp [faissSearchIP, List.length_insertionSort, length_scored]

theorem sorted_faissSearchIP (xs : List (List ℝ)) (q : List ℝ) (k : ℕ) :
    List.Pairwise rankLE (faissSearchIP xs q k) :=
  List.Pairwise.sublist (List.take_sublist k _)
    (List.sorted_insertionSort rankLE (scored xs q))

theorem snd_lt_of_mem_faissSearchIP {xs : List (List ℝ)} {q : List ℝ} {k : ℕ}
    {p : ℝ × ℕ} (h : p ∈ faissSearchIP xs q k) : p.2 < xs.length := by
  have h1 : p ∈ List.insertionSort rankLE (scored xs q) :=
    List.mem_of_mem_take h
  have h2 : p ∈ scored xs q :=
    ((List.perm_insertionSort rankLE _).mem_iff).mp h1
  simp only [scored, List.mem_map] at h2
  obtain ⟨a, ha, hp⟩ := h2
  have : a.1 < xs.length := by
    have : a.1 ∈ xs.enum.map Prod.fst := List.mem_map_of_mem Prod.fst ha
    rw [List.enum_map_fst] at this
    exact List.mem_range.mp this
  simpa [← hp] using this

theorem nodup_snd_faissSearchIP (xs : List (List ℝ)) (q : List ℝ) (k : ℕ) :
    ((faissSearchIP xs q k).map Prod.snd).Nodup := by
  have base : ((scored xs q).map Prod.snd).Nodup := by
    have he : (scored xs q).map Prod.snd = xs.enum.map Prod.fst := by
      simp only [scored, List.map_map]
      rfl
    rw [he]
    exact List.nodup_enum_map_fst xs
  have hperm : ((List.insertionSort rankLE (scored xs q)).map Prod.snd).Nodup :=
    (((List.perm_insertionSort rankLE _).map Prod.snd).nodup_iff).mpr base
  have heq : (faissSearchIP xs q k).map Prod.snd =
      ((List.insertionSort rankLE (scored xs q)).map Prod.snd).take k := by
    simp [faissSearchIP, List.map_take]
  rw [heq]
  exact hperm.sublist (List.take_sublist k _)

theorem pairwise_strict_faissSearchIP (xs : List (List ℝ)) (q : List ℝ) (k : ℕ) :
    List.Pairwise (fun a b : ℝ × ℕ => b.1 < a.1 ∨ (a.1 = b.1 ∧ a.2 < b.2))
      (faissSearchIP xs q k) := by
  have hs := sorted_faissSearchIP xs q k
  have hn : List.Pairwise (fun a b : ℝ × ℕ => a.2 ≠ b.2) (faissSearchIP xs q k) := by
    have := nodup_snd_faissSearchIP xs q k
    rw [List.Nodup, List.pairwise_map] at this
    exact this
  refine (hs.and hn).imp ?_
  intro a b hab
  obtain ⟨hrank, hne⟩ := hab
  unfold rankLE at hrank
  rcases hrank with h | ⟨he, hle⟩
  · exact Or.inl h
  · exact Or.inr ⟨he, lt_of_le_of_ne hle hne⟩

/-! ### Helper lemmas about result assembly -/

theorem length_assemble {meta : List MessageRecord} {pairs : List (ℝ × ℕ)}
    (h : ∀ p ∈ pairs, p.2 < meta.length) :
    (assemble meta pairs).length = pairs.length := by
  induction pairs with
  | nil => rfl
  | cons p rest ih =>
    have hp : p.2 < meta.length := h p (by simp)
    have hm : meta.get? p.2 = some (meta.get ⟨p.2, hp⟩) := List.get?_eq_get hp
    simp only [assemble, List.filterMap_cons, hm, Option.map_some]
    simpa [assemble] using ih (fun p hp2 => h p (by simp [hp2]))

theorem mem_assemble {meta : List MessageRecord} {pairs : List (ℝ × ℕ)}
    {r : SearchResult} (h : r ∈ assemble meta pairs) :
    ∃ p ∈ pairs, ∃ m, meta.get? p.2 = some m ∧ r = mkResult m p.1 := by
  simp only [assemble, List.mem_filterMap] at h
  obtain ⟨p, hp, hmap⟩ := h
  rw [Option.map_eq_some'] at hmap
  obtain ⟨m, hm, hr⟩ := hmap
  exact ⟨p, hp, m, hm, hr.symm⟩

theorem pairwise_score_assemble {meta : List MessageRecord}
    {pairs : List (ℝ × ℕ)} (h : List.Pairwise rankLE pairs) :
    List.Pairwise (fun r s : SearchResult => s.score ≤ r.score)
      (assemble meta pairs) := by
  refine List.Pairwise.filterMap _ ?_ h
  intro a b hab r hr s hs
  rw [Option.mem_def, Option.map_eq_some'] at hr hs
  obtain ⟨ma, _, hra⟩ := hr
  obtain ⟨mb, _, hsb⟩ := hs
  subst hra hsb
  show b.1 ≤ a.1
  rcases hab with hlt | ⟨heq, _⟩
  · exact le_of_lt hlt
  · exact le_of_eq heq.symm

/-! ### Helper lemmas about normalization -/

theorem l2normSq_nonneg (v : List ℝ) : 0 ≤ l2normSq v := by
  refine List.sum_nonneg ?_
  intro x hx
  simp only [List.mem_map] at hx
  obtain ⟨y, _, hy⟩ := hx
  rw [← hy]
  exact mul_self_nonneg y

theorem normalizeL2_of_normSq_one {v : List ℝ} (h : l2normSq v = 1) :
    normalizeL2 v = v := by
  unfold normalizeL2
  rw [h]
  simp

theorem normalizeL2_of_normSq_zero {v : List ℝ} (h : l2normSq v = 0) :
    normalizeL2 v = v := by
  unfold normalizeL2
  rw [h]
  simp

theorem l2normSq_map_div (v : List ℝ) (c : ℝ) :
    l2normSq (v.map fun x => x / c) = l2normSq v * (c * c)⁻¹ := by
  unfold l2normSq
  rw [List.map_map]
  have hfun : ((fun x => x * x) ∘ fun x => x / c) =
      fun x => (x * x) * (c * c)⁻¹ := by
    funext x
    simp only [Function.comp_apply, div_mul_div_comm, div_eq_mul_inv, mul_inv]
    ring
  rw [hfun, List.sum_map_mul_right]

theorem l2normSq_normalizeL2 {v : List ℝ} (h : l2normSq v ≠ 0) :
    l2normSq (normalizeL2 v) = 1 := by
  have hpos : 0 < l2normSq v := lt_of_le_of_ne (l2normSq_nonneg v) (Ne.symm h)
  have hs : Real.sqrt (l2normSq v) * Real.sqrt (l2normSq v) = l2normSq v :=
    Real.mul_self_sqrt (le_of_lt hpos)
  unfold normalizeL2
  rw [if_neg h, l2normSq_map_div, hs]
  exact mul_inv_cancel₀ h

theorem eq_zero_of_l2normSq_zero {v : List ℝ} (h : l2normSq v = 0) :
    ∀ x ∈ v, x = 0 := by
  induction v with
  | nil => simp
  | cons y rest ih =>
    unfold l2normSq at h
    simp only [List.map_cons, List.sum_cons] at h
    have hy : 0 ≤ y * y := mul_self_nonneg y
    have hr : 0 ≤ (rest.map (fun x => x * x)).sum := l2normSq_nonneg rest
    have hy0 : y * y = 0 := by linarith [add_eq_zero_iff_of_nonneg hy hr |>.mp h]
    have hr0 : (rest.map (fun x => x * x)).sum = 0 := by linarith
    intro x hx
    rcases List.mem_cons.mp hx with hx | hx
    · subst hx; exact mul_self_eq_zero.mp hy0
    · exact ih hr0 x hx

theorem dotIP_eq_zero_of_left_zero {a : List ℝ} (h : ∀ x ∈ a, x = 0)
    (b : List ℝ) : dotIP a b = 0 := by
  induction a generalizing b with
  | nil => simp [dotIP]
  | cons x rest ih =>
    cases b with
    | nil => simp [dotIP]
    | cons y tail =>
      unfold dotIP
      simp only [List.zipWith_cons_cons, List.sum_cons]
      rw [h x (by simp)]
      have := ih (fun z hz => h z (by simp [hz])) tail
      unfold dotIP at this
      rw [this]
      ring

/-! ### Unfolding `search` in the ready, valid-arguments case -/

theorem search_ready {enc : String → List ℝ} {st : EngineState}
    {vecs : List (List ℝ)} {q : String} {k : ℤ}
    (hidx : st.index = some vecs) (hne : st.metadata ≠ [])
    (hq : blankQuery q = false) (hk : 0 < k) :
    search enc st q k =
      .ok (assemble st.metadata
        (faissSearchIP vecs (normalizeL2 (enc q))
          ((min k (st.metadata.length : ℤ)).toNat))) := by
  have h1 : st.metadata.isEmpty = false := by
    simpa [List.isEmpty_iff] using hne
  have h2 : ¬ (k ≤ 0) := not_le.mpr hk
  unfold search
  rw [hidx]
  simp [h1, hq, h2]

/-! ### Claim theorems -/

/-- C7: for every query string and every `top_k`, calling `search` on
an engine in the Uninitialized state (no index loaded) fails with
`NotReady` (the `RuntimeError`) and never returns a result list. -/
theorem C7_uninitialized_search_fails (enc : String → List ℝ)
    (st : EngineState) (q : String) (k : ℤ)
    (h : st.index = none ∧ st.metadata = []) :
    search enc st q k = .error .notReady := by
  unfold search
  rw [h.1]

theorem C7_witness :
    (⟨none, []⟩ : EngineState).index = none ∧
    (⟨none, []⟩ : EngineState).metadata = [] ∧
    search (fun _ => [1]) ⟨none, []⟩ "hello" 5 = .error .notReady :=
  ⟨rfl, rfl, C7_uninitialized_search_fails (fun _ => [1]) ⟨none, []⟩ "hello" 5 ⟨rfl, rfl⟩⟩

/-- C8: on a Ready engine, `search` fails with `InvalidQuery` whenever
the query is empty after trimming whitespace and with `InvalidTopK`
whenever `top_k < 1` (query validation runs first); in particular
`search("", 5)` fails with `InvalidQuery` and `search("hello", 0)`
fails with `InvalidTopK`. -/
theorem C8_search_validation (enc : String → List ℝ) (st : EngineState)
    (vecs : List (List ℝ)) (hidx : st.index = some vecs)
    (hne : st.metadata ≠ []) :
    (∀ q k, blankQuery q = true → search enc st q k = .error .invalidQuery) ∧
    (∀ q k, blankQuery q = false → k ≤ 0 →
      search enc st q k = .error .invalidTopK) ∧
    search enc st "" 5 = .error .invalidQuery ∧
    search enc st "hello" 0 = .error .invalidTopK := by
  have h1 : st.metadata.isEmpty = false := by
    simpa [List.isEmpty_iff] using hne
  have hbq : ∀ q k, blankQuery q = true → search enc st q k = .error .invalidQuery := by
    intro q k hq
    unfold search
    rw [hidx]
    simp [h1, hq]
  have htk : ∀ q k, blankQuery q = false → k ≤ 0 →
      search enc st q k = .error .invalidTopK := by
    intro q k hq hk
    unfold search
    rw [hidx]
    simp [h1, hq, hk]
  exact ⟨hbq, htk, hbq "" 5 rfl, htk "hello" 0 (by decide) (by decide)⟩

theorem C8_witness :
    (⟨some [[1]], [⟨none, none, some "alice", some "hi", none⟩]⟩ :
        EngineState).index = some [[1]] ∧
    search (fun _ => [1])
        ⟨some [[1]], [⟨none, none, some "alice", some "hi", none⟩]⟩ "" 5 =
      .error .invalidQuery ∧
    search (fun _ => [1])
        ⟨some [[1]], [⟨none, none, some "alice", some "hi", none⟩]⟩ "hello" 0 =
      .error .invalidTopK := by
  have h := C8_search_validation (fun _ => [1])
    ⟨some [[1]], [⟨none, none, some "alice", some "hi", none⟩]⟩ [[1]] rfl (by simp)
  exact ⟨rfl, h.2.2.1, h.2.2.2⟩

/-- C6 (amended): `build([])` always fails with `EmptyInput`, and a
record without a `text` key makes `build` fail with `MissingField`,
in both cases before any index is constructed or any state replaced;
a record whose `text` is the empty string, however, is accepted. -/
theorem C6_empty_and_missing (enc : String → List ℝ) (st : EngineState)
    (store : Store) :
    buildIndex enc [] st store = (.error .emptyInput, st, store) ∧
    (∀ msgs (m0 : MessageRecord), m0 ∈ msgs → m0.text = none →
      buildIndex enc msgs st store = (.error .missingField, st, store)) := by
  constructor
  · unfold buildIndex
    simp
  · intro msgs m0 hm hn
    have hne : msgs ≠ [] := List.ne_nil_of_mem hm
    unfold buildIndex
    simp [List.isEmpty_iff, hne, extractTexts_error_of_missing hm hn]

theorem C6_witness :
    buildIndex (fun _ => [1]) [] ⟨none, []⟩ ⟨none, none⟩ =
      (.error .emptyInput, ⟨none, []⟩, ⟨none, none⟩) ∧
    buildIndex (fun _ => [1]) [⟨none, none, none, none, none⟩] ⟨none, []⟩
        ⟨none, none⟩ =
      (.error .missingField, ⟨none, []⟩, ⟨none, none⟩) :=
  ⟨(C6_empty_and_missing (fun _ => [1]) ⟨none, []⟩ ⟨none, none⟩).1,
    (C6_empty_and_missing (fun _ => [1]) ⟨none, []⟩ ⟨none, none⟩).2
      [⟨none, none, none, none, none⟩] ⟨none, none, none, none, none⟩
      (List.mem_singleton_self _) rfl⟩

/-- C6 counterexample: a record whose `text` field is present but
empty is accepted by `build_index` (the Python code only raises
`KeyError` for a missing key and never checks for emptiness), so the
claim that empty text always fails with `MissingField` is false. -/
theorem C6_counterexample :
    (⟨none, none, none, some "", none⟩ : MessageRecord).text = some "" ∧
    (buildIndex (fun _ => [1]) [⟨none, none, none, some "", none⟩]
      ⟨none, []⟩ ⟨none, none⟩).1 = .ok () :=
  ⟨rfl, rfl⟩

/-- C5 (amended): a `load` that fails because an artifact file is
missing raises the `FileNotFoundError` unchanged but leaves the
engine's prior state untouched; a `load` that fails while reading or
parsing an artifact does reset the engine to Uninitialized, but the
error reaching the caller is a `RuntimeError` wrapping the original
one, not the original error unchanged. -/
theorem C5_load_failure_modes (st : EngineState) (store : Store) :
    (store.indexFile = none →
      loadIndex st store = (.error .indexFileNotFound, st)) ∧
    (∀ c, store.indexFile = some c → store.metaFile = none →
      loadIndex st store = (.error .metaFileNotFound, st)) ∧
    (∀ c, store.indexFile = some none → store.metaFile = some c →
      loadIndex st store = (.error (.wrapped .indexCorrupt), ⟨none, []⟩)) ∧
    (∀ vecs, store.indexFile = some (some vecs) → store.metaFile = some none →
      loadIndex st store = (.error (.wrapped .metaUnparsable), ⟨none, []⟩)) := by
  obtain ⟨si, sm⟩ := store
  refine ⟨?_, ?_, ?_, ?_⟩
  · intro h
    subst h
    rfl
  · intro c h1 h2
    subst h1
    subst h2
    rfl
  · intro c h1 h2
    subst h1
    subst h2
    rfl
  · intro vecs h1 h2
    subst h1
    subst h2
    rfl

theorem C5_witness :
    (⟨some (some [[1]]), some none⟩ : Store).metaFile = some none ∧
    loadIndex ⟨none, []⟩ ⟨some (some [[1]]), some none⟩ =
      (.error (.wrapped .metaUnparsable), ⟨none, []⟩) :=
  ⟨rfl, (C5_load_failure_modes ⟨none, []⟩ ⟨some (some [[1]]), some none⟩).2.2.2
    [[1]] rfl rfl⟩

/-- C5 counterexample: a `load` that fails for a store-level reason (a
missing index artifact) on an engine holding a prior index leaves the
engine in its prior Ready state — `self.index` is still set — rather
than ending the call in the Uninitialized state as the claim
demands. -/
theorem C5_counterexample :
    (loadIndex ⟨some [[1]], [⟨none, none, some "alice", some "hi", none⟩]⟩
      ⟨none, some (some [⟨none, none, some "alice", some "hi", none⟩])⟩).1 =
      .error .indexFileNotFound ∧
    (loadIndex ⟨some [[1]], [⟨none, none, some "alice", some "hi", none⟩]⟩
      ⟨none, some (some [⟨none, none, some "alice", some "hi", none⟩])⟩).2.index =
      some [[1]] :=
  ⟨rfl, rfl⟩

/-- C4 (amended): every failing `build` leaves the prior in-memory
state and the store intact, and a successful `build` replaces the
state only with the fully constructed and fully persisted pair; a
`load` failing on a missing artifact also keeps the prior state, but
a `load` failing while reading or parsing an artifact resets the
engine to `index = None, metadata = []`, destroying the prior
state. -/
theorem C4_state_replacement :
    (∀ (enc : String → List ℝ) msgs (st : EngineState) (store : Store) e,
      (buildIndex enc msgs st store).1 = .error e →
      buildIndex enc msgs st store = (.error e, st, store)) ∧
    (∀ (enc : String → List ℝ) msgs (st st1 : EngineState)
        (store store1 : Store) u,
      buildIndex enc msgs st store = (.ok u, st1, store1) →
      ∃ vecs, st1 = ⟨some vecs, msgs⟩ ∧
        store1 = ⟨some (some vecs), some (some msgs)⟩) ∧
    (∀ (st : EngineState) (store : Store),
      store.indexFile = none ∨ store.metaFile = none →
      (loadIndex st store).2 = st) ∧
    (∀ (st : EngineState) (vecs : List (List ℝ)),
      (loadIndex st ⟨some none, some (some [])⟩).2 = ⟨none, []⟩ ∧
      (loadIndex st ⟨some (some vecs), some none⟩).2 = ⟨none, []⟩) := by
  refine ⟨?_, ?_, ?_, ?_⟩
  · intro enc msgs st store e h
    exact buildIndex_error_eq h
  · intro enc msgs st st1 store store1 u h
    obtain ⟨ts, _, hst, hstore⟩ := buildIndex_ok_shape h
    exact ⟨ts.map fun t => normalizeL2 (enc t), hst, hstore⟩
  · intro st store h
    obtain ⟨si, sm⟩ := store
    rcases h with h | h
    · subst h
      rfl
    · subst h
      cases si <;> rfl
  · intro st vecs
    exact ⟨rfl, rfl⟩

theorem C4_witness :
    (buildIndex (fun _ => [1]) [] ⟨some [[1]], [⟨none, none, some "bob", some "yo", none⟩]⟩
      ⟨none, none⟩).1 = .error .emptyInput ∧
    buildIndex (fun _ => [1]) [] ⟨some [[1]], [⟨none, none, some "bob", some "yo", none⟩]⟩
      ⟨none, none⟩ =
      (.error .emptyInput, ⟨some [[1]], [⟨none, none, some "bob", some "yo", none⟩]⟩,
        ⟨none, none⟩) :=
  ⟨rfl, C4_state_replacement.1 (fun _ => [1]) []
    ⟨some [[1]], [⟨none, none, some "bob", some "yo", none⟩]⟩ ⟨none, none⟩
    .emptyInput rfl⟩

/-- C4 counterexample: a failing `load` (unparsable metadata) on an
engine holding a prior index destroys the prior in-memory state: the
engine ends with `index = None` and empty metadata instead of the
prior pair, so the claim that any failing build or load leaves the
prior state intact is false. -/
theorem C4_counterexample :
    (loadIndex ⟨some [[2]], [⟨none, none, some "bob", some "yo", none⟩]⟩
      ⟨some (some [[2]]), some none⟩).1 = .error (.wrapped .metaUnparsable) ∧
    (loadIndex ⟨some [[2]], [⟨none, none, some "bob", some "yo", none⟩]⟩
      ⟨some (some [[2]]), some none⟩).2.index = none ∧
    (loadIndex ⟨some [[2]], [⟨none, none, some "bob", some "yo", none⟩]⟩
      ⟨some (some [[2]]), some none⟩).2.metadata = [] ∧
    (⟨some [[2]], [⟨none, none, some "bob", some "yo", none⟩]⟩ :
      EngineState).index ≠ none := by
  refine ⟨rfl, rfl, rfl, ?_⟩
  simp

/-- C3 (amended): after every successful `build` the number of indexed
vectors equals the length of the metadata list, and `load` fails
(with the `RuntimeError` wrapping the parse error) when the metadata
cannot be parsed; but `load` performs no consistency check between
the two artifacts: a store whose vector count differs from its
metadata count loads successfully, so a length mismatch is silently
tolerated rather than raising `CorruptData`. -/
theorem C3_length_invariant :
    (∀ (enc : String → List ℝ) msgs (st st1 : EngineState)
        (store store1 : Store) u,
      buildIndex enc msgs st store = (.ok u, st1, store1) →
      ∃ vecs, st1.index = some vecs ∧ vecs.length = st1.metadata.length) ∧
    (∀ (st : EngineState) (vecs : List (List ℝ)) (store : Store),
      store.indexFile = some (some vecs) → store.metaFile = some none →
      (loadIndex st store).1 = .error (.wrapped .metaUnparsable)) ∧
    (∀ (st : EngineState) (vecs : List (List ℝ)) msgs,
      loadIndex st ⟨some (some vecs), some (some msgs)⟩ =
        (.ok (), ⟨some vecs, msgs⟩)) := by
  refine ⟨?_, ?_, ?_⟩
  · intro enc msgs st st1 store store1 u h
    obtain ⟨ts, hts, hst, _⟩ := buildIndex_ok_shape h
    refine ⟨ts.map fun t => normalizeL2 (enc t), by rw [hst], ?_⟩
    rw [hst]
    simp [extractTexts_ok_length hts]
  · intro st vecs store h1 h2
    obtain ⟨si, sm⟩ := store
    subst h1
    subst h2
    rfl
  · intro st vecs msgs
    rfl

theorem C3_witness :
    (⟨some (some [[3]]), some none⟩ : Store).indexFile = some (some [[3]]) ∧
    (loadIndex ⟨none, []⟩ ⟨some (some [[3]]), some none⟩).1 =
      .error (.wrapped .metaUnparsable) :=
  ⟨rfl, C3_length_invariant.2.1 ⟨none, []⟩ [[3]] ⟨some (some [[3]]), some none⟩
    rfl rfl⟩

/-- C3 counterexample: a store holding two vectors but only one
metadata record loads successfully — `load_index` reads both
artifacts and checks nothing, so the engine ends Ready with
`len(vectors) = 2` and `len(metadata) = 1`, contradicting both the
claimed invariant after load and the claimed `CorruptData` failure on
a length mismatch. -/
theorem C3_counterexample :
    (loadIndex ⟨none, []⟩ ⟨some (some [[1], [0]]),
      some (some [⟨none, none, some "bob", some "yo", none⟩])⟩).1 = .ok () ∧
    (loadIndex ⟨none, []⟩ ⟨some (some [[1], [0]]),
      some (some [⟨none, none, some "bob", some "yo", none⟩])⟩).2.index =
      some [[1], [0]] ∧
    ([[1], [0]] : List (List ℝ)).length = 2 ∧
    (loadIndex ⟨none, []⟩ ⟨some (some [[1], [0]]),
      some (some [⟨none, none, some "bob", some "yo", none⟩])⟩).2.metadata.length = 1 :=
  ⟨rfl, rfl, rfl, rfl⟩

/-- C2: for every non-empty message list whose records all carry valid
(present, non-empty) `text` fields, `build` followed by `load` from
the same location succeeds, restores exactly the in-memory state the
build produced, and therefore yields, for every query and every
`top_k`, a result list identical to the one obtained from the state
immediately after `build`. -/
theorem C2_build_load_roundtrip (enc : String → List ℝ)
    (msgs : List MessageRecord) (st0 : EngineState) (store0 : Store)
    (hne : msgs ≠ []) (hval : ∀ m ∈ msgs, ∃ s, m.text = some s ∧ s ≠ "") :
    ∃ st1 store1, buildIndex enc msgs st0 store0 = (.ok (), st1, store1) ∧
      loadIndex st1 store1 = (.ok (), st1) ∧
      ∀ q k, search enc (loadIndex st1 store1).2 q k = search enc st1 q k := by
  have ht : ∀ m ∈ msgs, m.text.isSome := by
    intro m hm
    obtain ⟨s, hs, _⟩ := hval m hm
    simp [hs]
  obtain ⟨ts, _, hbuild⟩ := buildIndex_ok_of_valid st0 store0 hne ht
  refine ⟨_, _, hbuild, rfl, ?_⟩
  intro q k
  rfl

theorem C2_witness :
    ([⟨none, none, some "alice", some "hi", none⟩] : List MessageRecord) ≠ [] ∧
    ∃ st1 store1,
      buildIndex (fun _ => [1]) [⟨none, none, some "alice", some "hi", none⟩]
        ⟨none, []⟩ ⟨none, none⟩ = (.ok (), st1, store1) ∧
      loadIndex st1 store1 = (.ok (), st1) ∧
      ∀ q k, search (fun _ => [1]) (loadIndex st1 store1).2 q k =
        search (fun _ => [1]) st1 q k :=
  ⟨by simp,
    C2_build_load_roundtrip (fun _ => [1])
      [⟨none, none, some "alice", some "hi", none⟩] ⟨none, []⟩ ⟨none, none⟩
      (by simp)
      (by
        intro m hm
        rw [List.mem_singleton] at hm
        subst hm
        exact ⟨"hi", rfl, by decide⟩)⟩

/-- C9: `build_index` stores exactly the L2-normalized embeddings and
`search` compares against the L2-normalized query embedding; a vector
of nonzero norm is normalized to unit L2 length; normalizing an
already unit-norm vector is the identity (so its norm stays 1); and a
zero vector is left as-is, with every inner-product score it produces
equal to 0 rather than a division by zero. -/
theorem C9_normalization :
    (∀ (enc : String → List ℝ) msgs (st st1 : EngineState)
        (store store1 : Store) u,
      buildIndex enc msgs st store = (.ok u, st1, store1) →
      ∃ ts, extractTexts msgs = .ok ts ∧
        st1.index = some (ts.map fun t => normalizeL2 (enc t))) ∧
    (∀ (enc : String → List ℝ) (st : EngineState) vecs q k,
      st.index = some vecs → st.metadata ≠ [] → blankQuery q = false →
      0 < k →
      search enc st q k = .ok (assemble st.metadata
        (faissSearchIP vecs (normalizeL2 (enc q))
          ((min k (st.metadata.length : ℤ)).toNat)))) ∧
    (∀ v : List ℝ, l2normSq v ≠ 0 → l2normSq (normalizeL2 v) = 1) ∧
    (∀ v : List ℝ, l2normSq v = 1 →
      normalizeL2 v = v ∧ l2normSq (normalizeL2 v) = 1) ∧
    (∀ v : List ℝ, l2normSq v = 0 →
      normalizeL2 v = v ∧ ∀ w, dotIP (normalizeL2 v) w = 0) := by
  refine ⟨?_, ?_, ?_, ?_, ?_⟩
  · intro enc msgs st st1 store store1 u h
    obtain ⟨ts, hts, hst, _⟩ := buildIndex_ok_shape h
    exact ⟨ts, hts, by rw [hst]⟩
  · intro enc st vecs q k hidx hne hq hk
    exact search_ready hidx hne hq hk
  · intro v hv
    exact l2normSq_normalizeL2 hv
  · intro v hv
    have h1 : normalizeL2 v = v := normalizeL2_of_normSq_one hv
    exact ⟨h1, by rw [h1, hv]⟩
  · intro v hv
    have h1 : normalizeL2 v = v := normalizeL2_of_normSq_zero hv
    refine ⟨h1, ?_⟩
    intro w
    rw [h1]
    exact dotIP_eq_zero_of_left_zero (eq_zero_of_l2normSq_zero hv) w

theorem C9_witness :
    l2normSq [(1 : ℝ), 0] = 1 ∧ normalizeL2 [(1 : ℝ), 0] = [1, 0] ∧
    l2normSq ([] : List ℝ) = 0 ∧ normalizeL2 ([] : List ℝ) = [] := by
  have h1 : l2normSq [(1 : ℝ), 0] = 1 := by
    norm_num [l2normSq]
  have h0 : l2normSq ([] : List ℝ) = 0 := by
    norm_num [l2normSq]
  exact ⟨h1, (C9_normalization.2.2.2.1 [(1 : ℝ), 0] h1).1, h0,
    (C9_normalization.2.2.2.2 ([] : List ℝ) h0).1⟩

/-- C10: every result of a successful `search` carries a
`participant` field that always equals that result's `sender` field
(both copied from the matched record's `sender`), and every
per-result field is copied from the metadata record at the returned
index position, with missing metadata fields yielding `None` rather
than an error. -/
theorem C10_result_fields (enc : String → List ℝ) (st : EngineState)
    (q : String) (k : ℤ) (results : List SearchResult)
    (h : search enc st q k = .ok results) :
    ∀ r ∈ results, r.participant = r.sender ∧
      ∃ i, ∃ hi : i < st.metadata.length,
        r = mkResult (st.metadata.get ⟨i, hi⟩) r.score := by
  unfold search at h
  cases hidx : st.index with
  | none =>
    rw [hidx] at h
    cases h
  | some vecs =>
    rw [hidx] at h
    cases h1 : st.metadata.isEmpty <;> rw [h1] at h
    case true => simp at h
    case false =>
    cases h2 : blankQuery q <;> rw [h2] at h
    case true => simp at h
    case false =>
    by_cases h3 : k ≤ 0
    · simp [h3] at h
    · simp only [h3, Bool.false_eq_true, if_false, Except.ok.injEq] at h
      subst h
      intro r hr
      obtain ⟨p, hp, m, hm, hrm⟩ := mem_assemble hr
      obtain ⟨hi, hget⟩ := List.get?_eq_some.mp hm
      subst hrm
      refine ⟨rfl, p.2, hi, ?_⟩
      rw [hget]
      rfl

theorem C10_witness :
    ∃ results,
      search (fun _ => [1])
        ⟨some [[1]], [⟨none, none, some "alice", some "hi", none⟩]⟩ "x" 1 =
        .ok results ∧
      ∀ r ∈ results, r.participant = r.sender := by
  have hs := @search_ready (fun _ => [1])
    ⟨some [[1]], [⟨none, none, some "alice", some "hi", none⟩]⟩
    [[1]] "x" 1 rfl (by simp) (by decide) (by decide)
  refine ⟨_, hs, ?_⟩
  intro r hr
  exact (C10_result_fields (fun _ => [1])
    ⟨some [[1]], [⟨none, none, some "alice", some "hi", none⟩]⟩ "x" 1 _ hs
    r hr).1

/-- C1 (amended): for every engine in the Ready state (index present
and length-consistent with the non-empty metadata), every integer
`k ≥ 1` and every query that is non-empty after trimming whitespace,
`search(q, k)` returns exactly `min(k, N)` results sorted by
non-increasing similarity score, equal scores broken by the lower
original insertion position first, and a `top_k` exceeding the corpus
size is silently capped to `N` rather than raising an error. -/
theorem C1_search_sorted_capped (enc : String → List ℝ) (st : EngineState)
    (vecs : List (List ℝ)) (q : String) (k : ℤ)
    (hidx : st.index = some vecs) (hlen : vecs.length = st.metadata.length)
    (hne : st.metadata ≠ []) (hq : blankQuery q = false) (hk : 1 ≤ k) :
    ∃ pairs,
      pairs = faissSearchIP vecs (normalizeL2 (enc q))
        ((min k (st.metadata.length : ℤ)).toNat) ∧
      search enc st q k = .ok (assemble st.metadata pairs) ∧
      (assemble st.metadata pairs).length = min k.toNat st.metadata.length ∧
      List.Pairwise (fun r s : SearchResult => s.score ≤ r.score)
        (assemble st.metadata pairs) ∧
      List.Pairwise (fun a b : ℝ × ℕ => b.1 < a.1 ∨ (a.1 = b.1 ∧ a.2 < b.2))
        pairs := by
  have hk0 : (0 : ℤ) < k := by omega
  refine ⟨_, rfl, search_ready hidx hne hq hk0, ?_, ?_, ?_⟩
  · have hmem : ∀ p ∈ faissSearchIP vecs (normalizeL2 (enc q))
        ((min k (st.metadata.length : ℤ)).toNat),
        p.2 < st.metadata.length := by
      intro p hp
      exact hlen ▸ snd_lt_of_mem_faissSearchIP hp
    rw [length_assemble hmem, length_faissSearchIP, hlen]
    omega
  · exact pairwise_score_assemble (sorted_faissSearchIP _ _ _)
  · exact pairwise_strict_faissSearchIP _ _ _

theorem C1_witness :
    (1 : ℤ) ≤ 1 ∧ blankQuery "x" = false ∧
    ∃ results,
      search (fun _ => [1])
        ⟨some [[1]], [⟨none, none, some "alice", some "hi", none⟩]⟩ "x" 10 =
        .ok results ∧
      results.length = 1 ∧
      List.Pairwise (fun r s : SearchResult => s.score ≤ r.score) results := by
  obtain ⟨pairs, _, hs, hlen2, hpw, _⟩ := C1_search_sorted_capped (fun _ => [1])
    ⟨some [[1]], [⟨none, none, some "alice", some "hi", none⟩]⟩ [[1]] "x" 10
    rfl rfl (by simp) (by decide) (by decide)
  refine ⟨by decide, by decide, _, hs, ?_, hpw⟩
  simpa using hlen2

/-- C1 counterexample: on a Ready engine with one indexed vector and
consistent metadata, the non-empty query `" "` with `k = 1` does not
return `min(k, N) = 1` results: it raises `InvalidQuery`, because the
code rejects any query that is empty after `strip()`; the claim as
stated, quantifying over all non-empty query strings, is therefore
false. -/
theorem C1_counterexample :
    (" " : String) ≠ "" ∧
    (⟨some [[1]], [⟨none, none, some "alice", some "hi", none⟩]⟩ :
      EngineState).index = some [[1]] ∧
    ([[1]] : List (List ℝ)).length =
      ([⟨none, none, some "alice", some "hi", none⟩] :
        List MessageRecord).length ∧
    search (fun _ => [1])
      ⟨some [[1]], [⟨none, none, some "alice", some "hi", none⟩]⟩ " " 1 =
      .error .invalidQuery := by
  refine ⟨by decide, rfl, rfl, rfl⟩
